import Mathlib

/-!
Verification development for the contract-compliance repository.

The definitions below are a shallow embedding of the repository's record
store, registrars, version orchestrator, risk detector, mailer and text
extractor.  File contents, timestamps and the external collaborators
(PDF parsing, text completion, SMTP) are modelled as explicit oracle
parameters; the control flow and the state mutations are translated
directly from the Python source (`regulatory/regupdate.py`, `app.py`,
`mail.py`).
-/

namespace Spec

/-! ## Python string primitives used by the source -/

/-- Byte-level substring search helper: does the haystack start with the
needle?  Models the prefix step of Python's `in` operator on `str`. -/
def startsWithL : List Char → List Char → Bool
  | [], _ => true
  | _ :: _, [] => false
  | a :: as, b :: bs => a == b && startsWithL as bs

/-- Models Python's `needle in hay` substring containment on strings. -/
def substrB (needle : List Char) : List Char → Bool
  | [] => startsWithL needle []
  | c :: rest => startsWithL needle (c :: rest) || substrB needle rest

/-- Models Python's `str.lower()` (ASCII case folding, as used on the
ASCII keyword tables and contract text). -/
def pyLower (s : String) : String :=
  String.mk (s.data.map Char.toLower)

/-- Models Python's `needle in hay` on `String`. -/
def strIn (needle hay : String) : Bool :=
  substrB needle.data hay.data

/-- Models Python's `str.strip()` (used by the source only to trim and to
test for whitespace-only text). -/
def pyStrip (s : String) : String :=
  String.mk (((s.data.dropWhile Char.isWhitespace).reverse.dropWhile
      Char.isWhitespace).reverse)

/-- Models the Python truthiness test `not s.strip()`: the string is empty
or consists only of whitespace. -/
def pyBlank (s : String) : Bool :=
  s.data.all Char.isWhitespace

/-! ## Risk detection (`regupdate.detect_risks`) -/

/-- The fixed keyword tables `RISK_KEYWORDS` from `regupdate.py`, in the
source's (insertion) order. -/
def RISK_KEYWORDS : List (String × List String) :=
  [("high", ["no data protection", "no breach notification",
             "no confidentiality", "phi without safeguards"]),
   ("medium", ["limited liability", "data retention unspecified",
               "indemnity capped"]),
   ("low", ["dispute resolution", "notice period", "audit"])]

/-- Translation of `regupdate.detect_risks`: on falsy (empty) text return
`[]`; otherwise lower-case the text and collect, level by level and
keyword by keyword, every `(level, keyword)` whose keyword occurs in the
lowered text. -/
def detect_risks (text : String) : List (String × String) :=
  if text = "" then []
  else
    let t := pyLower text
    RISK_KEYWORDS.flatMap fun lk =>
      (lk.2.filter fun kw => strIn kw t).map fun kw => (lk.1, kw)

/-! ## Record-store load (`regupdate.load_json`) -/

/-- State of a JSON file on disk as seen by `load_json`: missing,
present but not parseable, or parsed to a value. -/
inductive DiskFile (α : Type)
  | absent
  | unparsable
  | parsed (data : α)
deriving DecidableEq

/-- Translation of `regupdate.load_json`: a missing file and a parse
failure both yield the empty mapping (the exception is caught and
logged); only a successful parse yields its data. -/
def load_json {α : Type} (emptyMap : α) (disk : String → DiskFile α)
    (path : String) : α :=
  match disk path with
  | DiskFile.absent => emptyMap
  | DiskFile.unparsable => emptyMap
  | DiskFile.parsed d => d

/-! ## Mailer (`mail.send_compliance_update_email`) -/

/-- File-system oracle for the mailer: `size p` is `none` when the path
does not exist and `some n` for an existing file of `n` bytes;
`readOk p` tells whether opening the file for attachment succeeds
(a per-file failure is caught and the file skipped). -/
structure MailFs where
  size : String → Option Nat
  readOk : String → Bool

/-- Observable result of the mailer: either it refused to send, or it
sent a message carrying the given attachments. -/
inductive MailResult
  | notSent
  | sent (attached : List String)
deriving DecidableEq

/-- The validity filter of `send_compliance_update_email`: the path must
exist and the file must be non-empty (`p.exists() and p.stat().st_size > 0`). -/
def validAttachment (fs : MailFs) (p : String) : Bool :=
  match fs.size p with
  | some n => decide (0 < n)
  | none => false

/-- Translation of `mail.send_compliance_update_email`: filter the
attachment list down to existing non-empty files; with no valid file
left, return without sending; otherwise attach every valid file whose
read succeeds and send.  SMTP failures are caught and do not change the
attachment set. -/
def send_compliance_update_email (fs : MailFs) (attachments : List String) :
    MailResult :=
  let valid := attachments.filter (validAttachment fs)
  if valid = [] then MailResult.notSent
  else MailResult.sent (valid.filter fs.readOk)

/-! ## Text extractor (`regupdate.extract_text`) -/

/-- Oracle view of one file for the extractor.  `pdfPages` is the result
of `PdfReader` plus per-page `extract_text`: `none` when the reader
itself raises, otherwise one entry per page, `none` for a page whose
extraction raises (the source substitutes `""`).  `readText` is the
result of `read_text`: `none` when it raises. -/
structure SourceFile where
  pdfPages : Option (List (Option String))
  readText : Option String
deriving DecidableEq

/-- Models `"\n".join(pages)` over the per-page results, with a raising
page contributing `""`. -/
def joinPages (pages : List (Option String)) : String :=
  String.intercalate "\n" (pages.map fun pg => pg.getD "")

/-- Translation of `regupdate.extract_text`.  `suffixOf` is the path's
suffix (`Path(path).suffix`), `disk` maps a path to `none` when the file
does not exist.  Every failure branch of the source returns `""`; the
`.txt`/`.md` branch and the fallback branch run the same `read_text`
call. -/
def extract_text (suffixOf : String → String)
    (disk : String → Option SourceFile) (path : String) : String :=
  if path = "" then ""
  else
    match disk path with
    | none => ""
    | some f =>
      let ext := pyLower (suffixOf path)
      if ext = ".pdf" then
        match f.pdfPages with
        | none => ""
        | some pages => pyStrip (joinPages pages)
      else if ext = ".txt" ∨ ext = ".md" then
        match f.readText with
        | none => ""
        | some s => s
      else
        match f.readText with
        | none => ""
        | some s => s

/-! ## Helper lemmas about substring search -/

theorem startsWithL_map {f : Char → Char} :
    ∀ {n h : List Char}, startsWithL n h = true →
      startsWithL (n.map f) (h.map f) = true := by
  intro n
  induction n with
  | nil => intro h _; simp [startsWithL]
  | cons a as ih =>
    intro h hs
    cases h with
    | nil => simp [startsWithL] at hs
    | cons b bs =>
      simp only [startsWithL, Bool.and_eq_true, beq_iff_eq] at hs
      simp only [List.map_cons, startsWithL, Bool.and_eq_true, beq_iff_eq]
      exact ⟨by rw [hs.1], ih hs.2⟩

theorem substrB_map {f : Char → Char} {n : List Char} :
    ∀ {h : List Char}, substrB n h = true →
      substrB (n.map f) (h.map f) = true := by
  intro h
  induction h with
  | nil =>
    intro hs
    simpa [substrB] using startsWithL_map (f := f) hs
  | cons c cs ih =>
    intro hs
    simp only [substrB, Bool.or_eq_true] at hs
    rcases hs with hs | hs
    · simp only [List.map_cons, substrB, Bool.or_eq_true]
      exact Or.inl (by simpa using startsWithL_map (f := f) hs)
    · simp only [List.map_cons, substrB, Bool.or_eq_true]
      exact Or.inr (ih hs)

theorem detect_risks_mem_iff (text : String) (level kw : String) :
    (level, kw) ∈ detect_risks text ↔
      ∃ kws, (level, kws) ∈ RISK_KEYWORDS ∧ kw ∈ kws ∧
        strIn kw (pyLower text) = true := by
  by_cases htext : text = ""
  · subst htext
    rw [show detect_risks "" = [] from rfl]
    simp only [List.not_mem_nil, false_iff]
    rintro ⟨kws, hkws, hkw, hin⟩
    have hfalse : ∀ p ∈ RISK_KEYWORDS, ∀ k ∈ p.2,
        strIn k (pyLower "") = false := by decide
    have := hfalse (level, kws) hkws kw hkw
    rw [this] at hin
    exact Bool.false_ne_true hin
  · simp only [detect_risks, if_neg htext, List.mem_flatMap, List.mem_map,
      List.mem_filter]
    constructor
    · rintro ⟨lk, hlk, kw', ⟨hkw', hin⟩, heq⟩
      have h1 : level = lk.1 := congrArg Prod.fst heq.symm
      have h2 : kw = kw' := congrArg Prod.snd heq.symm
      subst h2
      exact ⟨lk.2, by rw [h1]; exact hlk, hkw', hin⟩
    · rintro ⟨kws, hkws, hkw, hin⟩
      exact ⟨(level, kws), hkws, kw, ⟨hkw, hin⟩, rfl⟩

theorem strIn_nonempty_ne_empty {needle text : String}
    (hne : needle.data ≠ []) (h : strIn needle text = true) : text ≠ "" := by
  intro habs
  subst habs
  unfold strIn substrB at h
  cases hd : needle.data with
  | nil => exact hne hd
  | cons a as => rw [hd] at h; simp [startsWithL] at h

/-! ## Claim C6 -/

/-- C6: risk detection is a pure, deterministic, case-insensitive function
of the text and the fixed keyword tables: `(level, kw)` is reported
exactly when `kw` belongs to that level's table and occurs in the
lower-cased text; any text containing "No Data Protection" yields the
finding `("high", "no data protection")`; empty text yields no findings. -/
theorem detect_risks_characterization :
    (∀ text level kw, (level, kw) ∈ detect_risks text ↔
        ∃ kws, (level, kws) ∈ RISK_KEYWORDS ∧ kw ∈ kws ∧
          strIn kw (pyLower text) = true)
    ∧ (∀ text : String, strIn "No Data Protection" text = true →
        ("high", "no data protection") ∈ detect_risks text)
    ∧ detect_risks "" = [] := by
  refine ⟨detect_risks_mem_iff, ?_, rfl⟩
  intro text h
  have hlow : substrB ("No Data Protection".data.map Char.toLower)
      (text.data.map Char.toLower) = true := substrB_map h
  have hmap : "No Data Protection".data.map Char.toLower =
      "no data protection".data := by decide
  rw [hmap] at hlow
  have hin : strIn "no data protection" (pyLower text) = true := hlow
  exact (detect_risks_mem_iff text "high" "no data protection").mpr
    ⟨["no data protection", "no breach notification", "no confidentiality",
      "phi without safeguards"], by decide, by decide, hin⟩

/-- Witness for C6 at a concrete mixed-case text. -/
theorem detect_risks_characterization_witness :
    ("high", "no data protection") ∈
      detect_risks "Clause 7: No Data Protection is provided." :=
  detect_risks_characterization.2.1 "Clause 7: No Data Protection is provided."
    (by decide)

/-! ## Claim C7 -/

/-- C7: `load_json` returns the empty mapping whenever the file is absent
or unparsable, and for every input it either returns the empty mapping or
the successfully parsed data — no exception propagates. -/
theorem load_json_availability :
    ∀ (α : Type) (emptyMap : α) (disk : String → DiskFile α) (path : String),
      ((disk path = DiskFile.absent ∨ disk path = DiskFile.unparsable) →
        load_json emptyMap disk path = emptyMap)
      ∧ (load_json emptyMap disk path = emptyMap ∨
          ∃ d, disk path = DiskFile.parsed d ∧
            load_json emptyMap disk path = d) := by
  intro α emptyMap disk path
  constructor
  · rintro (h | h) <;> simp [load_json, h]
  · cases hd : disk path with
    | absent => exact Or.inl (by simp [load_json, hd])
    | unparsable => exact Or.inl (by simp [load_json, hd])
    | parsed d => exact Or.inr ⟨d, rfl, by simp [load_json, hd]⟩

/-- Witness for C7: a corrupt store file loads as the empty mapping. -/
theorem load_json_availability_witness :
    load_json (α := Nat) 0 (fun _ => DiskFile.unparsable) "manifest.json" = 0 :=
  (load_json_availability Nat 0 (fun _ => DiskFile.unparsable)
    "manifest.json").1 (Or.inr rfl)

/-! ## Claim C8 -/

/-- C8: the mailer keeps exactly the attachments that exist and are
non-empty, refuses to send when none remains, and with one missing and
one present (readable, non-empty) attachment it sends exactly the
present one. -/
theorem mailer_attachment_policy :
    ∀ (fs : MailFs) (attachments : List String),
      (∀ p, p ∈ attachments.filter (validAttachment fs) ↔
          p ∈ attachments ∧ ∃ n, fs.size p = some n ∧ 0 < n)
      ∧ (attachments.filter (validAttachment fs) = [] →
          send_compliance_update_email fs attachments = MailResult.notSent)
      ∧ (∀ p q n, fs.size p = none → fs.size q = some n → 0 < n →
          fs.readOk q = true →
          send_compliance_update_email fs [p, q] = MailResult.sent [q]) := by
  intro fs attachments
  refine ⟨?_, ?_, ?_⟩
  · intro p
    simp only [List.mem_filter, validAttachment]
    constructor
    · rintro ⟨hp, hv⟩
      cases hs : fs.size p with
      | none => rw [hs] at hv; exact absurd hv (by simp)
      | some n =>
        rw [hs] at hv
        exact ⟨hp, n, rfl, by simpa using hv⟩
    · rintro ⟨hp, n, hs, hn⟩
      exact ⟨hp, by rw [hs]; simpa using hn⟩
  · intro h
    simp [send_compliance_update_email, h]
  · intro p q n hp hq hn hr
    have hvp : validAttachment fs p = false := by
      simp [validAttachment, hp]
    have hvq : validAttachment fs q = true := by
      simp [validAttachment, hq, hn]
    simp [send_compliance_update_email, List.filter, hvp, hvq, hr]

/-- Witness for C8: one missing and one present attachment; only the
present one is sent. -/
theorem mailer_attachment_policy_witness :
    send_compliance_update_email
      ⟨fun s => if s = "report.pdf" then some 5 else none, fun _ => true⟩
      ["gone.pdf", "report.pdf"] = MailResult.sent ["report.pdf"] :=
  (mailer_attachment_policy
      ⟨fun s => if s = "report.pdf" then some 5 else none, fun _ => true⟩
      ["gone.pdf", "report.pdf"]).2.2 "gone.pdf" "report.pdf" 5
    (by decide) (by decide) (by decide) rfl

/-! ## Claim C9 -/

/-- C9: the text extractor is total: every branch produces a string, the
failure branches (empty path, missing file, PDF reader failure, text
read failure) all produce `""`, and the success branches produce the
read text or the stripped page join. -/
theorem extract_text_totality :
    ∀ (suffixOf : String → String) (disk : String → Option SourceFile)
      (path : String),
      (path = "" → extract_text suffixOf disk path = "")
      ∧ (disk path = none → extract_text suffixOf disk path = "")
      ∧ (∀ f, disk path = some f → path ≠ "" →
          (pyLower (suffixOf path) = ".pdf" → f.pdfPages = none →
            extract_text suffixOf disk path = "")
          ∧ (pyLower (suffixOf path) ≠ ".pdf" → f.readText = none →
            extract_text suffixOf disk path = "")
          ∧ (∀ s, pyLower (suffixOf path) ≠ ".pdf" → f.readText = some s →
            extract_text suffixOf disk path = s)
          ∧ (∀ pages, pyLower (suffixOf path) = ".pdf" →
              f.pdfPages = some pages →
              extract_text suffixOf disk path = pyStrip (joinPages pages))) := by
  intro suffixOf disk path
  refine ⟨?_, ?_, ?_⟩
  · intro h; simp [extract_text, h]
  · intro h
    by_cases hp : path = ""
    · simp [extract_text, hp]
    · simp [extract_text, hp, h]
  · intro f hf hp
    refine ⟨?_, ?_, ?_, ?_⟩
    · intro hext hpdf
      simp [extract_text, hp, hf, hext, hpdf]
    · intro hext hrt
      by_cases htxt : pyLower (suffixOf path) = ".txt" ∨
          pyLower (suffixOf path) = ".md"
      · simp [extract_text, hp, hf, hext, htxt, hrt]
      · simp [extract_text, hp, hf, hext, htxt, hrt]
    · intro s hext hrt
      by_cases htxt : pyLower (suffixOf path) = ".txt" ∨
          pyLower (suffixOf path) = ".md"
      · simp [extract_text, hp, hf, hext, htxt, hrt]
      · simp [extract_text, hp, hf, hext, htxt, hrt]
    · intro pages hext hpdf
      simp [extract_text, hp, hf, hext, hpdf]

/-- Witness for C9: a missing file extracts to the empty string. -/
theorem extract_text_totality_witness :
    extract_text (fun _ => ".pdf") (fun _ => none) "contract.pdf" = "" :=
  (extract_text_totality (fun _ => ".pdf") (fun _ => none) "contract.pdf").2.1
    rfl

/-! ## Contract manifest records and the version orchestrator

One entry of `contract_manifests.json`.  The JSON dict is heterogeneous;
`m.get(key)` is modelled by an `Option String` field (a key written as
JSON `null` and an absent key both read back as falsy `None`, so both map
to `none`).  `orig_name` and `saved_path` are the backward-compatibility
keys written only by `app._register_contract`. -/

structure ContractRec where
  path : Option String
  current_version_path : Option String
  last_suggestions_pdf : Option String
  registered_at : Option String
  last_updated : Option String
  orig_name : Option String
  saved_path : Option String
deriving DecidableEq

/-- The contract manifest: identifier to record, as loaded by
`load_json` and persisted wholesale by `save_json`. -/
abbrev CStore := String → Option ContractRec

/-- File-existence view of the storage directories: `fs p = true` iff a
file exists at path `p`. -/
abbrev Files := String → Bool

/-- Python truthiness of an optional string: `None` and `""` are falsy. -/
def truthyStr (s : Option String) : Option String :=
  match s with
  | some t => if t = "" then none else some t
  | none => none

/-- Models Python's `a or b` on optional strings, as in
`m.get("current_version_path") or m.get("path")`. -/
def pyOr (a b : Option String) : Option String :=
  match truthyStr a with
  | some s => some s
  | none => b

/-- The distinct return messages of `apply_updates_to_contract`,
abstracted to constructors carrying the data interpolated by the source. -/
inductive Outcome
  | notFound (cid : String)
  | inputMissing (cpath : Option String)
  | emptyDocument (cid : String)
  | noRegulations
  | completed (suggestions : String) (rectified : Option String)
deriving DecidableEq

/-- Oracles for one invocation of the orchestrator: the text-extractor
result on the resolved input, the ids present in the regulation manifest,
the timestamped path `save_text_artifact` produces for the suggestions
PDF, the result of `rag.run_rectification_pipeline` (`none` when RAG is
unavailable, `auto_apply` is false, or the call raises — the exception is
caught), whether the caught mailer call fails, and the timestamp written
into `last_updated`. -/
structure Env where
  extract : String → String
  regManifests : List String
  suggPath : String
  rag : Option String
  emailFails : Bool
  now : String

/-- Translation of `regupdate.apply_updates_to_contract`.  Returns the
outcome together with the persisted manifest and the resulting file
system.  Phases, in source order: record lookup; input resolution
(`current_version_path or path`, which must be truthy and exist);
text extraction with whitespace-only test; regulation-store emptiness
check; suggestions artifact creation and immediate manifest persist;
RAG rectification (oracle); mailing (caught, no state effect); version
swap with deletion of the old current file when it is neither the
original nor the new artifact (`unlink` failures are caught, so a
missing old file is simply not removed). -/
def apply_updates_to_contract (env : Env) (store : CStore) (fs : Files)
    (cid : String) : Outcome × CStore × Files :=
  match store cid with
  | none => (Outcome.notFound cid, store, fs)
  | some m =>
    let cpath? := pyOr m.current_version_path m.path
    match truthyStr cpath? with
    | none => (Outcome.inputMissing cpath?, store, fs)
    | some cpath =>
      if fs cpath = false then (Outcome.inputMissing cpath?, store, fs)
      else
        let ctext := env.extract cpath
        if pyBlank ctext then (Outcome.emptyDocument cid, store, fs)
        else if env.regManifests = [] then (Outcome.noRegulations, store, fs)
        else
          let suggestions_pdf := env.suggPath
          let fs1 : Files := fun p => p = suggestions_pdf || fs p
          let m1 : ContractRec :=
            { m with last_suggestions_pdf := some suggestions_pdf }
          let store1 : CStore := fun k => if k = cid then some m1 else store k
          match truthyStr env.rag with
          | none => (Outcome.completed suggestions_pdf none, store1, fs1)
          | some rectified =>
            let old := m1.current_version_path
            let orig := m1.path
            let m2 : ContractRec :=
              { m1 with current_version_path := some rectified,
                        last_updated := some env.now }
            let store2 : CStore := fun k => if k = cid then some m2 else store1 k
            let fs2 : Files :=
              match old with
              | some o =>
                if o ≠ "" ∧ some o ≠ orig ∧ o ≠ rectified then
                  fun p => if p = o then false else fs1 p
                else fs1
              | none => fs1
            (Outcome.completed suggestions_pdf (some rectified), store2, fs2)

/-- Repeated rectification passes on the same identifier (the state
threaded through consecutive calls of the orchestrator). -/
def iteratePasses (cid : String) : List Env → CStore × Files → CStore × Files
  | [], st => st
  | env :: envs, st =>
    let r := apply_updates_to_contract env st.1 st.2 cid
    iteratePasses cid envs (r.2.1, r.2.2)

/-- Fixtures for the concrete witnesses below: a freshly registered
record, a record whose current version moved on, and small environments. -/

def recOrig : ContractRec :=
  ⟨some "orig.pdf", some "orig.pdf", none, some "t0", none, none, none⟩

def recCur : ContractRec :=
  ⟨some "orig.pdf", some "cur.pdf", none, some "t0", none, none, none⟩

def storeOrig : CStore := fun k => if k = "c" then some recOrig else none

def storeCur : CStore := fun k => if k = "c" then some recCur else none

def fsOrig : Files := fun p => p == "orig.pdf"

def fsNone : Files := fun _ => false

def envPass1 : Env :=
  ⟨fun _ => "contract text", ["EU_GDPR"], "s1.pdf", some "v1.pdf", false, "t1"⟩

def envPass2 : Env :=
  ⟨fun _ => "contract text", ["EU_GDPR"], "s2.pdf", some "v2.pdf", false, "t2"⟩

def envNoRag : Env :=
  ⟨fun _ => "contract text", ["EU_GDPR"], "s.pdf", none, true, "t1"⟩

def envNoRegs : Env :=
  ⟨fun _ => "contract text", [], "s.pdf", some "v1.pdf", false, "t1"⟩

/-- One pass preserves the record's presence, its `path` field, and the
existence of the file at `path`. -/
theorem apply_updates_preserves_original (env : Env) (store : CStore)
    (fs : Files) (cid : String) (m : ContractRec) (op : String)
    (hm : store cid = some m) (hp : m.path = some op) (hf : fs op = true) :
    ∃ m', (apply_updates_to_contract env store fs cid).2.1 cid = some m' ∧
      m'.path = some op ∧
      (apply_updates_to_contract env store fs cid).2.2 op = true := by
  unfold apply_updates_to_contract
  rw [hm]
  simp only
  cases hc : truthyStr (pyOr m.current_version_path m.path) with
  | none => exact ⟨m, hm, hp, hf⟩
  | some cpath =>
    simp only
    by_cases hfc : fs cpath = false
    · rw [if_pos hfc]
      exact ⟨m, hm, hp, hf⟩
    · rw [if_neg hfc]
      by_cases hb : pyBlank (env.extract cpath) = true
      · rw [if_pos hb]
        exact ⟨m, hm, hp, hf⟩
      · rw [if_neg hb]
        by_cases hr : env.regManifests = []
        · rw [if_pos hr]
          exact ⟨m, hm, hp, hf⟩
        · rw [if_neg hr]
          cases hrag : truthyStr env.rag with
          | none =>
            refine ⟨{ m with last_suggestions_pdf := some env.suggPath },
              by simp, hp, by simp [hf]⟩
          | some rectified =>
            refine ⟨{ m with last_suggestions_pdf := some env.suggPath,
                             current_version_path := some rectified,
                             last_updated := some env.now }, by simp, hp, ?_⟩
            cases ho : m.current_version_path with
            | none => simp [hf]
            | some o =>
              simp only
              by_cases hdel : o ≠ "" ∧ some o ≠ m.path ∧ o ≠ rectified
              · rw [if_pos hdel]
                have hne : op ≠ o := fun habs =>
                  hdel.2.1 (by rw [← habs, hp])
                simp [hne, hf]
              · rw [if_neg hdel]
                simp [hf]

/-- Iterated passes preserve the record's `path` field and the existence
of the file it names. -/
theorem iteratePasses_preserves_original (cid : String) :
    ∀ (envs : List Env) (store : CStore) (fs : Files) (m : ContractRec)
      (op : String), store cid = some m → m.path = some op → fs op = true →
      ∃ m', (iteratePasses cid envs (store, fs)).1 cid = some m' ∧
        m'.path = some op ∧ (iteratePasses cid envs (store, fs)).2 op = true := by
  intro envs
  induction envs with
  | nil => intro store fs m op hm hp hf; exact ⟨m, hm, hp, hf⟩
  | cons env envs ih =>
    intro store fs m op hm hp hf
    obtain ⟨m', hm', hp', hf'⟩ :=
      apply_updates_preserves_original env store fs cid m op hm hp hf
    simpa [iteratePasses] using
      ih (apply_updates_to_contract env store fs cid).2.1
        (apply_updates_to_contract env store fs cid).2.2 m' op hm' hp' hf'

/-! ## Claim C1 -/

/-- C1: whenever a pass produces a rectified artifact, the persisted
record's `current_version_path` is the new artifact path, and a file
that existed before the pass and is gone after it can only be the old
`current_version_path`, distinct from both the record's `path` (the
original upload) and the new artifact path; consequently, across any
number of consecutive passes, the file at the original `path` is never
deleted. -/
theorem apply_updates_version_swap_safety (env : Env) (envs : List Env)
    (store : CStore) (fs : Files) (cid : String) (m : ContractRec)
    (hm : store cid = some m) :
    (∀ s n, (apply_updates_to_contract env store fs cid).1 =
        Outcome.completed s (some n) →
      (∃ m', (apply_updates_to_contract env store fs cid).2.1 cid = some m' ∧
          m'.current_version_path = some n) ∧
      (∀ p, fs p = true →
          (apply_updates_to_contract env store fs cid).2.2 p = false →
          m.current_version_path = some p ∧ some p ≠ m.path ∧ p ≠ n))
    ∧ (∀ op, m.path = some op → fs op = true →
        (iteratePasses cid envs (store, fs)).2 op = true) := by
  constructor
  · intro s n
    unfold apply_updates_to_contract
    rw [hm]
    simp only
    cases hc : truthyStr (pyOr m.current_version_path m.path) with
    | none => intro h; exact absurd h (by simp)
    | some cpath =>
      simp only
      by_cases hfc : fs cpath = false
      · rw [if_pos hfc]; intro h; exact absurd h (by simp)
      · rw [if_neg hfc]
        by_cases hb : pyBlank (env.extract cpath) = true
        · rw [if_pos hb]; intro h; exact absurd h (by simp)
        · rw [if_neg hb]
          by_cases hr : env.regManifests = []
          · rw [if_pos hr]; intro h; exact absurd h (by simp)
          · rw [if_neg hr]
            cases hrag : truthyStr env.rag with
            | none => intro h; simp at h
            | some rectified =>
              intro h
              have h' : Outcome.completed env.suggPath (some rectified) =
                  Outcome.completed s (some n) := h
              injection h' with h1 h2
              injection h2 with h3
              subst h3
              constructor
              · exact ⟨{ m with last_suggestions_pdf := some env.suggPath,
                                current_version_path := some rectified,
                                last_updated := some env.now },
                  by simp, rfl⟩
              · intro p hfp hdelp
                cases ho : m.current_version_path with
                | none =>
                  rw [ho] at hdelp
                  simp [hfp] at hdelp
                | some o =>
                  rw [ho] at hdelp
                  simp only at hdelp
                  by_cases hcond : o ≠ "" ∧ some o ≠ m.path ∧ o ≠ rectified
                  · rw [if_pos hcond] at hdelp
                    by_cases hpo : p = o
                    · subst hpo
                      exact ⟨rfl, hcond.2.1, hcond.2.2⟩
                    · simp [hpo, hfp] at hdelp
                  · rw [if_neg hcond] at hdelp
                    simp [hfp] at hdelp
  · intro op hp hf
    obtain ⟨m', _, _, hf'⟩ :=
      iteratePasses_preserves_original cid envs store fs m op hm hp hf
    exact hf'

/-- Witness for C1: a concrete two-pass run producing and retiring an
intermediate version while the original upload survives. -/
theorem apply_updates_version_swap_safety_witness :
    (iteratePasses "c" [envPass1, envPass2] (storeOrig, fsOrig)).2
      "orig.pdf" = true :=
  (apply_updates_version_swap_safety envPass1 [envPass1, envPass2] storeOrig
    fsOrig "c" recOrig (by decide)).2 "orig.pdf" (by decide) (by decide)

/-! ## Claim C2 -/

/-- C2: an unknown identifier yields `notFound` with store and file
system untouched, and a record whose resolved input (current path, else
original path) is falsy or names no existing file yields `inputMissing`
with store and file system untouched. -/
theorem apply_updates_missing_input_unchanged (env : Env) (store : CStore)
    (fs : Files) (cid : String) :
    (store cid = none →
      apply_updates_to_contract env store fs cid =
        (Outcome.notFound cid, store, fs))
    ∧ (∀ m, store cid = some m →
        (truthyStr (pyOr m.current_version_path m.path) = none →
          apply_updates_to_contract env store fs cid =
            (Outcome.inputMissing (pyOr m.current_version_path m.path),
              store, fs))
        ∧ (∀ cpath,
            truthyStr (pyOr m.current_version_path m.path) = some cpath →
            fs cpath = false →
            apply_updates_to_contract env store fs cid =
              (Outcome.inputMissing (pyOr m.current_version_path m.path),
                store, fs))) := by
  refine ⟨?_, ?_⟩
  · intro h
    unfold apply_updates_to_contract
    rw [h]
  · intro m hm
    refine ⟨?_, ?_⟩
    · intro h
      unfold apply_updates_to_contract
      rw [hm]
      simp only
      rw [h]
    · intro cpath hc hfc
      unfold apply_updates_to_contract
      rw [hm]
      simp only
      rw [hc]
      simp only
      rw [if_pos hfc]

/-- Witness for C2: a registered record whose file is gone produces
`inputMissing` and leaves the store as it was. -/
theorem apply_updates_missing_input_unchanged_witness :
    apply_updates_to_contract envPass1 storeCur fsNone "c" =
      (Outcome.inputMissing (some "cur.pdf"), storeCur, fsNone) :=
  ((apply_updates_missing_input_unchanged envPass1 storeCur fsNone "c").2
    recCur (by decide)).2 "cur.pdf" (by decide) rfl

/-! ## Claim C10 -/

/-- C10: with a resolvable, existing, non-blank input but an empty
regulation store, the orchestrator returns the `noRegulations` outcome
and leaves both the manifest and the file system completely unchanged
(no suggestions artifact, no rectification, no record mutation). -/
theorem apply_updates_no_regulations_early_return (env : Env)
    (store : CStore) (fs : Files) (cid : String) (m : ContractRec)
    (cpath : String) (hm : store cid = some m)
    (hc : truthyStr (pyOr m.current_version_path m.path) = some cpath)
    (hf : fs cpath = true) (hb : pyBlank (env.extract cpath) = false)
    (hr : env.regManifests = []) :
    apply_updates_to_contract env store fs cid =
      (Outcome.noRegulations, store, fs) := by
  unfold apply_updates_to_contract
  rw [hm]
  simp only
  rw [hc]
  simp only
  rw [if_neg (by simp [hf]), if_neg (by simp [hb]), if_pos hr]

/-- Witness for C10: a concrete record with readable text but no
registered regulations. -/
theorem apply_updates_no_regulations_early_return_witness :
    apply_updates_to_contract envNoRegs storeOrig fsOrig "c" =
      (Outcome.noRegulations, storeOrig, fsOrig) :=
  apply_updates_no_regulations_early_return envNoRegs storeOrig fsOrig "c"
    recOrig "orig.pdf" (by decide) (by decide) (by decide) (by decide) rfl

/-! ## Claim C5 -/

/-- C5 counterexample: an invocation that passes input resolution and
text extraction but finds the regulation store empty generates no
suggestions artifact and leaves `last_suggestions_pdf` untouched, so the
claim as stated (suggestions always generated and persisted once input
resolution and extraction pass) is false. -/
theorem suggestions_skipped_without_regulations :
    pyBlank (envNoRegs.extract "orig.pdf") = false
    ∧ fsOrig "orig.pdf" = true
    ∧ apply_updates_to_contract envNoRegs storeOrig fsOrig "c" =
        (Outcome.noRegulations, storeOrig, fsOrig)
    ∧ (storeOrig "c").map ContractRec.last_suggestions_pdf = some none := by
  exact ⟨by decide, by decide, rfl, by decide⟩

/-- C5 amended: for every invocation that passes input resolution, text
extraction, and the regulation-store non-emptiness check, the suggestions
artifact is created on disk and its path is persisted into the record's
`last_suggestions_pdf`, whatever the rectification oracle, the mailer and
the version swap do afterwards. -/
theorem suggestions_persisted_before_rectification (env : Env)
    (store : CStore) (fs : Files) (cid : String) (m : ContractRec)
    (cpath : String) (hm : store cid = some m)
    (hc : truthyStr (pyOr m.current_version_path m.path) = some cpath)
    (hf : fs cpath = true) (hb : pyBlank (env.extract cpath) = false)
    (hr : env.regManifests ≠ []) :
    ∃ m', (apply_updates_to_contract env store fs cid).2.1 cid = some m' ∧
      m'.last_suggestions_pdf = some env.suggPath := by
  unfold apply_updates_to_contract
  rw [hm]
  simp only
  rw [hc]
  simp only
  rw [if_neg (by simp [hf]), if_neg (by simp [hb]), if_neg hr]
  cases hrag : truthyStr env.rag with
  | none =>
    exact ⟨{ m with last_suggestions_pdf := some env.suggPath }, by simp, rfl⟩
  | some rectified =>
    exact ⟨{ m with last_suggestions_pdf := some env.suggPath,
                    current_version_path := some rectified,
                    last_updated := some env.now }, by simp, rfl⟩

/-- Witness for the amended C5: a pass whose rectification phase returns
nothing still persists the suggestions path. -/
theorem suggestions_persisted_before_rectification_witness :
    ∃ m', (apply_updates_to_contract envNoRag storeOrig fsOrig "c").2.1 "c" =
        some m' ∧ m'.last_suggestions_pdf = some "s.pdf" :=
  suggestions_persisted_before_rectification envNoRag storeOrig fsOrig "c"
    recOrig "orig.pdf" (by decide) (by decide) (by decide) (by decide)
    (by decide)

/-! ## Filename handling of the registrars

`_save_uploaded_file` disambiguates with `os.path.splitext`;
registration derives the identifier with `pathlib.PurePath.stem`.  Both
are modelled at the character-list level: `splitAtLastDot s = some (b, e)`
splits `s` around its last dot (`e` dot-free). -/

def splitAtLastDot : List Char → Option (List Char × List Char)
  | [] => none
  | c :: cs =>
    match splitAtLastDot cs with
    | some (b, e) => some (c :: b, e)
    | none => if c = '.' then some ([], cs) else none

/-- Models `os.path.splitext` on a bare filename: split at the last dot
unless every character before it is a dot (leading-dot rule). -/
def splitExtL (s : List Char) : List Char × List Char :=
  match splitAtLastDot s with
  | none => (s, [])
  | some (b, e) =>
    if b.all (fun c => c == '.') then (s, []) else (b, '.' :: e)

/-- Models `pathlib.PurePath.stem` on a bare filename: drop the suffix
when the last dot is neither the first nor the last character. -/
def pstemL (s : List Char) : List Char :=
  match splitAtLastDot s with
  | none => s
  | some (b, e) => if b.isEmpty || e.isEmpty then s else b

/-- Models `Path(s).stem` on strings. -/
def pyStem (s : String) : String := String.mk (pstemL s.data)

/-- The disambiguated destination name `f"{base}_{ts}{ext}"` built by
`_save_uploaded_file` when the destination already exists. -/
def disambL (s ts : List Char) : List Char :=
  (splitExtL s).1 ++ '_' :: (ts ++ (splitExtL s).2)

/-- Filenames of the shape dot, dot, more dots, then a dot-free tail
(such as `"..md"`): exactly the names on which `splitext` refuses to
split while `stem` still strips a suffix. -/
def dotsOnlyBase (s : List Char) : Bool :=
  match splitAtLastDot s with
  | none => false
  | some (b, e) => !b.isEmpty && b.all (fun c => c == '.') && !e.isEmpty

theorem splitAtLastDot_eq_none : ∀ {s : List Char},
    splitAtLastDot s = none ↔ '.' ∉ s := by
  intro s
  induction s with
  | nil => simp [splitAtLastDot]
  | cons c cs ih =>
    simp only [splitAtLastDot]
    cases h : splitAtLastDot cs with
    | some be =>
      simp only [List.mem_cons, not_or]
      constructor
      · intro habs; exact absurd habs (by simp)
      · intro ⟨_, hcs⟩
        exact absurd (ih.mpr hcs) (by simp [h])
    | none =>
      by_cases hc : c = '.'
      · subst hc
        simp
      · simp only [if_neg hc, List.mem_cons, not_or, true_iff]
        exact ⟨fun habs => hc habs.symm, ih.mp h⟩

theorem splitAtLastDot_eq_some : ∀ {s b e : List Char},
    splitAtLastDot s = some (b, e) → s = b ++ '.' :: e ∧ '.' ∉ e := by
  intro s
  induction s with
  | nil => intro b e h; simp [splitAtLastDot] at h
  | cons c cs ih =>
    intro b e h
    simp only [splitAtLastDot] at h
    cases hcs : splitAtLastDot cs with
    | some be =>
      rw [hcs] at h
      obtain ⟨b2, e2⟩ := be
      simp only [Option.some.injEq, Prod.mk.injEq] at h
      obtain ⟨hb, he⟩ := h
      obtain ⟨hs2, hne2⟩ := ih hcs
      subst hb; subst he
      exact ⟨by rw [hs2]; simp, hne2⟩
    | none =>
      rw [hcs] at h
      by_cases hc : c = '.'
      · rw [if_pos hc] at h
        simp only [Option.some.injEq, Prod.mk.injEq] at h
        obtain ⟨hb, he⟩ := h
        subst hb; subst he
        exact ⟨by rw [hc]; rfl, splitAtLastDot_eq_none.mp hcs⟩
      · rw [if_neg hc] at h
        exact absurd h (by simp)

theorem splitAtLastDot_append_dot : ∀ (x : List Char) {y : List Char},
    '.' ∉ y → splitAtLastDot (x ++ '.' :: y) = some (x, y) := by
  intro x
  induction x with
  | nil =>
    intro y hy
    simp [splitAtLastDot, splitAtLastDot_eq_none.mpr hy]
  | cons c x ih =>
    intro y hy
    simp [splitAtLastDot, ih hy]

theorem splitExtL_append (s : List Char) :
    (splitExtL s).1 ++ (splitExtL s).2 = s := by
  unfold splitExtL
  cases h : splitAtLastDot s with
  | none => simp
  | some be =>
    obtain ⟨b, e⟩ := be
    obtain ⟨hs, _⟩ := splitAtLastDot_eq_some h
    by_cases hb : b.all (fun c => c == '.')
    · simp [hb]
    · simp only [if_neg hb]
      exact hs.symm

theorem disambL_ne (s ts : List Char) : disambL s ts ≠ s := by
  intro h
  have hlen := congrArg List.length h
  have hcat := congrArg List.length (splitExtL_append s)
  simp only [disambL, List.length_append, List.length_cons] at hlen hcat
  omega

/-- The derived identifiers of a name and of its disambiguation differ,
except on the pathological `dotsOnlyBase` names. -/
theorem pstem_disambL_ne (s ts : List Char) (hts : '.' ∉ ts)
    (hdo : dotsOnlyBase s = false) : pstemL (disambL s ts) ≠ pstemL s := by
  unfold disambL
  cases hs : splitAtLastDot s with
  | none =>
    have hnd : '.' ∉ s := splitAtLastDot_eq_none.mp hs
    have hsplit : splitExtL s = (s, []) := by simp [splitExtL, hs]
    rw [hsplit]
    simp only [List.append_nil]
    have hnd2 : splitAtLastDot (s ++ '_' :: ts) = none := by
      apply splitAtLastDot_eq_none.mpr
      intro hmem
      rcases List.mem_append.mp hmem with h | h
      · exact hnd h
      · rcases List.mem_cons.mp h with h | h
        · exact absurd h (by decide)
        · exact hts h
    simp only [pstemL, hnd2, hs]
    intro h
    have hlen := congrArg List.length h
    simp only [List.length_append, List.length_cons] at hlen
    omega
  | some be =>
    obtain ⟨b, e⟩ := be
    obtain ⟨hse, hne⟩ := splitAtLastDot_eq_some hs
    by_cases hb : b.all (fun c => c == '.')
    · have hsplit : splitExtL s = (s, []) := by simp [splitExtL, hs, hb]
      rw [hsplit]
      simp only [List.append_nil]
      have hy : '.' ∉ e ++ '_' :: ts := by
        intro hmem
        rcases List.mem_append.mp hmem with h | h
        · exact hne h
        · rcases List.mem_cons.mp h with h | h
          · exact absurd h (by decide)
          · exact hts h
      have hsald2 : splitAtLastDot (s ++ '_' :: ts) =
          some (b, e ++ '_' :: ts) := by
        rw [hse, List.append_assoc, List.cons_append]
        exact splitAtLastDot_append_dot b hy
      have hje : (e ++ '_' :: ts).isEmpty = false := by cases e <;> rfl
      simp only [pstemL, hsald2, hs]
      cases hbe : b.isEmpty with
      | true =>
        rw [if_pos (by simp [hbe]), if_pos (by simp [hbe])]
        intro h
        have hlen := congrArg List.length h
        simp only [List.length_append, List.length_cons] at hlen
        omega
      | false =>
        cases hee : e.isEmpty with
        | true =>
          have hee2 : e = [] := by
            cases e with
            | nil => rfl
            | cons a as => exact absurd hee Bool.false_ne_true
          subst hee2
          rw [if_neg (by simp [hbe, hje]), if_pos (by simp [hbe])]
          intro h
          have hlen := congrArg List.length h
          rw [hse] at hlen
          simp only [List.length_append, List.length_cons,
            List.length_nil] at hlen
          omega
        | false =>
          exfalso
          have hcontra : dotsOnlyBase s = true := by
            simp [dotsOnlyBase, hs, hb, hbe, hee]
          rw [hdo] at hcontra
          exact Bool.false_ne_true hcontra
    · have hsplit : splitExtL s = (b, '.' :: e) := by
        simp [splitExtL, hs, hb]
      rw [hsplit]
      have hbne : b ≠ [] := by
        intro habs
        subst habs
        exact hb (by simp)
      have hsald2 : splitAtLastDot (b ++ '_' :: (ts ++ '.' :: e)) =
          some (b ++ '_' :: ts, e) := by
        have hassoc : b ++ '_' :: (ts ++ '.' :: e) =
            (b ++ '_' :: ts) ++ '.' :: e := by simp
        rw [hassoc]
        exact splitAtLastDot_append_dot (b ++ '_' :: ts) hne
      have hbts : (b ++ '_' :: ts).isEmpty = false := by cases b <;> rfl
      have hbe : b.isEmpty = false := by
        cases b with
        | nil => exact absurd rfl hbne
        | cons a as => rfl
      simp only [pstemL, hsald2, hs]
      cases hee : e.isEmpty with
      | true =>
        have hee2 : e = [] := by
          cases e with
          | nil => rfl
          | cons a as => exact absurd hee Bool.false_ne_true
        subst hee2
        rw [if_pos (by simp), if_pos (by simp)]
        intro h
        have hlen := congrArg List.length h
        rw [hse] at hlen
        simp only [List.length_append, List.length_cons] at hlen
        omega
      | false =>
        rw [if_neg (by simp [hbts, hee]), if_neg (by simp [hbe, hee])]
        intro h
        have hlen := congrArg List.length h
        simp only [List.length_append, List.length_cons] at hlen
        omega

/-! ## Upload registration (`app._save_uploaded_file`, `app._register_contract`) -/

/-- Managed contract storage by file name: `none` when no file of that
name exists, `some c` for a file with (abstract) content `c`. -/
abbrev FileContentMap := String → Option Nat

/-- Translation of `app._save_uploaded_file`: write the upload to its
own name, or to the timestamp-disambiguated name when a file of that
name already exists; returns the new storage state and the destination. -/
def _save_uploaded_file (fsc : FileContentMap) (ts : String) (name : String)
    (content : Nat) : FileContentMap × String :=
  let dest : String :=
    if (fsc name).isSome then String.mk (disambL name.data ts.data)
    else name
  (fun p => if p = dest then some content else fsc p, dest)

/-- Translation of `app._register_contract`: derive the key from the
saved path's stem and write the fresh record (the `id` dict key inside
the record duplicates the mapping key and is omitted; path resolution is
the identity in this model). -/
def _register_contract (store : CStore) (now : String) (saved_path : String) :
    CStore × String :=
  let key := pyStem saved_path
  let entry : ContractRec :=
    ⟨some saved_path, some saved_path, none, some now, none,
     some saved_path, some saved_path⟩
  (fun k => if k = key then some entry else store k, key)

/-- The dashboard upload flow: save the uploaded file, then register the
saved destination. -/
def uploadContract (fsc : FileContentMap) (store : CStore) (ts now : String)
    (name : String) (content : Nat) : FileContentMap × CStore × String :=
  let r1 := _save_uploaded_file fsc ts name content
  let r2 := _register_contract store now r1.2
  (r1.1, r2.1, r2.2)

/-- Fixtures for the registration witnesses and counterexample. -/

def fscEmpty : FileContentMap := fun _ => none

def storeEmpty : CStore := fun _ => none

def upload1P : FileContentMap × CStore × String :=
  uploadContract fscEmpty storeEmpty "20250101120000" "t1" "contract.pdf" 1

def upload1CE : FileContentMap × CStore × String :=
  uploadContract fscEmpty storeEmpty "20250101120000" "t1" "..md" 1

def upload2CE : FileContentMap × CStore × String :=
  uploadContract upload1CE.1 upload1CE.2.1 "20250101130000" "t2" "..md" 2

/-- Result of `regupdate.register_contract_from_path`: the source file is
missing, the copy raised (caught, reported), or the contract was
registered. -/
inductive RegisterResult
  | fileNotFound
  | copyFailed
  | registered (fsc : FileContentMap) (store : CStore) (cid : String)

/-- Translation of `regupdate.register_contract_from_path`: check the
source exists, copy it into managed contract storage (directories are
erased in this model, so the destination keeps the file's name), derive
the id from the stem, and write the fresh record. -/
def register_contract_from_path (fsc : FileContentMap) (store : CStore)
    (copyOk : Bool) (now : String) (path_str : String) : RegisterResult :=
  match fsc path_str with
  | none => RegisterResult.fileNotFound
  | some content =>
    if copyOk then
      let cid := pyStem path_str
      let fsc2 : FileContentMap :=
        fun p => if p = path_str then some content else fsc p
      let entry : ContractRec :=
        ⟨some path_str, some path_str, none, some now, none, none, none⟩
      RegisterResult.registered fsc2
        (fun k => if k = cid then some entry else store k) cid
    else RegisterResult.copyFailed

/-! ## Claim C4 -/

/-- C4: a freshly registered document's record has
`current_version_path = path = destination`, no suggestions path yet, a
set `registered_at`, and its identifier is the destination's stem — for
the dashboard upload flow and for the CLI registrar alike. -/
theorem register_fresh_record_shape (fsc : FileContentMap) (store : CStore)
    (ts now name : String) (content : Nat) :
    (∃ dest : String,
      (_save_uploaded_file fsc ts name content).2 = dest ∧
      (uploadContract fsc store ts now name content).2.2 = pyStem dest ∧
      (uploadContract fsc store ts now name content).2.1 (pyStem dest) =
        some ⟨some dest, some dest, none, some now, none, some dest,
              some dest⟩)
    ∧ (fsc name = some content →
        ∃ fsc2 store2,
          register_contract_from_path fsc store true now name =
            RegisterResult.registered fsc2 store2 (pyStem name) ∧
          store2 (pyStem name) = some ⟨some name, some name, none, some now,
            none, none, none⟩) := by
  constructor
  · refine ⟨(_save_uploaded_file fsc ts name content).2, rfl, rfl, ?_⟩
    simp [uploadContract, _register_contract]
  · intro h
    refine ⟨fun p => if p = name then some content else fsc p,
      fun k => if k = pyStem name then
        some ⟨some name, some name, none, some now, none, none, none⟩
      else store k, ?_, by simp⟩
    simp [register_contract_from_path, h]

/-- Witness for C4: a concrete CLI registration creates the expected
fresh record. -/
theorem register_fresh_record_shape_witness :
    ∃ fsc2 store2,
      register_contract_from_path
        (fun p => if p = "deal.pdf" then some 7 else none) storeEmpty true
        "t1" "deal.pdf" =
        RegisterResult.registered fsc2 store2 (pyStem "deal.pdf") ∧
      store2 (pyStem "deal.pdf") = some ⟨some "deal.pdf", some "deal.pdf",
        none, some "t1", none, none, none⟩ :=
  (register_fresh_record_shape
    (fun p => if p = "deal.pdf" then some 7 else none) storeEmpty "ts" "t1"
    "deal.pdf" 7).2 (by decide)

/-! ## Claim C3 -/

/-- C3 counterexample: for the filename `"..md"` (allowed by the upload
filter, which only checks the trailing `md`), both registrations derive
the identifier `"."`, so the second registration replaces the first
record instead of creating a distinct one. -/
theorem upload_same_name_id_collision :
    upload2CE.2.2 = upload1CE.2.2 ∧
    upload2CE.2.1 upload1CE.2.2 ≠ upload1CE.2.1 upload1CE.2.2 := by
  decide

/-- C3 amended: registering a second upload with the same filename never
overwrites the first file on disk — the second is stored under the
timestamp-disambiguated name — and it receives its own distinct
identifier record provided the filename is not of the pathological
`dotsOnlyBase` shape (two or more leading dots followed by a dot-free
tail, such as `"..md"`), on which both registrations derive the same
identifier and the second record replaces the first. -/
theorem upload_no_clobber_disambiguation (fsc : FileContentMap)
    (store : CStore) (ts1 now1 ts2 now2 name : String) (c1 c2 : Nat)
    (fsc1 : FileContentMap) (store1 : CStore) (key1 : String)
    (h0 : fsc name = none)
    (hu1 : uploadContract fsc store ts1 now1 name c1 =
      (fsc1, store1, key1)) :
    fsc1 name = some c1
    ∧ key1 = pyStem name
    ∧ (_save_uploaded_file fsc1 ts2 name c2).2 =
        String.mk (disambL name.data ts2.data)
    ∧ String.mk (disambL name.data ts2.data) ≠ name
    ∧ (uploadContract fsc1 store1 ts2 now2 name c2).1 name = some c1
    ∧ ('.' ∉ ts2.data → dotsOnlyBase name.data = false →
        (uploadContract fsc1 store1 ts2 now2 name c2).2.2 ≠ key1
        ∧ (uploadContract fsc1 store1 ts2 now2 name c2).2.1 key1 =
            store1 key1
        ∧ store1 key1 = some ⟨some name, some name, none, some now1, none,
              some name, some name⟩) := by
  have h1 : uploadContract fsc store ts1 now1 name c1 =
      ((fun p => if p = name then some c1 else fsc p),
       (fun k => if k = pyStem name then
          some ⟨some name, some name, none, some now1, none, some name,
                some name⟩
        else store k),
       pyStem name) := by
    simp [uploadContract, _save_uploaded_file, _register_contract, h0]
  rw [h1] at hu1
  injection hu1 with hf hrest
  injection hrest with hs hk
  subst hf
  subst hs
  subst hk
  have hne4 : String.mk (disambL name.data ts2.data) ≠ name := fun h =>
    disambL_ne name.data ts2.data (congrArg String.data h)
  have hsave2 : _save_uploaded_file
      (fun p => if p = name then some c1 else fsc p) ts2 name c2 =
      (fun p => if p = String.mk (disambL name.data ts2.data) then some c2
        else if p = name then some c1 else fsc p,
       String.mk (disambL name.data ts2.data)) := by
    simp [_save_uploaded_file]
  refine ⟨by simp, rfl, by rw [hsave2], hne4, ?_, ?_⟩
  · simp only [uploadContract, hsave2]
    rw [if_neg (fun h => hne4 h.symm)]
    simp
  · intro hts hdo
    have hkne : pyStem (String.mk (disambL name.data ts2.data)) ≠
        pyStem name := fun h =>
      pstem_disambL_ne name.data ts2.data hts hdo (congrArg String.data h)
    refine ⟨?_, ?_, by simp⟩
    · simp only [uploadContract, hsave2, _register_contract]
      exact hkne
    · simp only [uploadContract, hsave2, _register_contract]
      rw [if_neg (fun h => hkne h.symm)]

/-- Witness for the amended C3: two uploads of `"contract.pdf"`; the
second registration's identifier differs from the first's. -/
theorem upload_no_clobber_disambiguation_witness :
    (uploadContract upload1P.1 upload1P.2.1 "20250101130000" "t2"
        "contract.pdf" 2).2.2 ≠ upload1P.2.2 :=
  ((upload_no_clobber_disambiguation fscEmpty storeEmpty "20250101120000"
      "t1" "20250101130000" "t2" "contract.pdf" 1 2 upload1P.1 upload1P.2.1
      upload1P.2.2 rfl rfl).2.2.2.2.2 (by decide) (by decide)).1

end Spec
